import Mathlib

/-!
Verification development for the `mpt` arithmetic-and-relational functor
(arfunctor) expression engine: shallow embeddings of

* the compile-time / run-time expression nodes and their evaluation
  (`include/mpt/arfunctors.hpp`,
  `include/mpt/arfunctors/core/compiletime_arfunctor.hpp`,
  `include/mpt/arfunctors/core/runtime_arfunctor.hpp`),
* the numeric-literal reader (`include/mpt/numstr.hpp`),
* the tokenizer and shunting-yard parse loop
  (`include/mpt/arfunctors/parser.hpp`),

together with theorems settling the specification claims about them.
-/

namespace Mpt

/-! ## Expression nodes and evaluation

`composed_arfunctor<Operator, Operand...>` stores a tuple of operands and an
operator.  Its `operator()` (via `call_impl`) applies the operator to
`evaluate_arfunctor_or_value(operand, args...)` for every operand, where
`evaluate_arfunctor_or_value` invokes the operand when it is a compile-time
arfunctor or a `runtime_arfunctor`, and returns it unchanged otherwise.
A `runtime_arfunctor` dispatches its call virtually to the boxed payload.
The inductive below captures exactly the operand shapes that occur:
a plain value, a plain functor, a boxed (type-erased) payload, and unary or
binary composed nodes. -/
inductive Node (R V : Type) where
  | value : V → Node R V
  | functor : (R → V) → Node R V
  | runtime : Node R V → Node R V
  | comp1 : (V → V) → Node R V → Node R V
  | comp2 : (V → V → V) → Node R V → Node R V → Node R V

/-- Shallow embedding of `evaluate_arfunctor_or_value` (arfunctors.hpp,
lines 430-437) combined with `composed_arfunctor::call_impl` (lines 514-518)
and `runtime_arfunctor::operator()` (virtual dispatch to the payload,
lines 397-399): functor-like operands are invoked with the record, plain
values are returned unchanged, and a composed node applies its operator to
the evaluation of each operand. -/
def evaluate_arfunctor_or_value {R V : Type} : Node R V → R → V
  | .value v, _ => v
  | .functor f, r => f r
  | .runtime n, r => evaluate_arfunctor_or_value n r
  | .comp1 op x, r => op (evaluate_arfunctor_or_value x r)
  | .comp2 op l rr, r =>
      op (evaluate_arfunctor_or_value l r) (evaluate_arfunctor_or_value rr r)

/-- Embedding of `is_runtime_arfunctor_v`: whether the operand is a
type-erased (`runtime_arfunctor`) node. -/
def is_runtime_arfunctor_node {R V : Type} : Node R V → Bool
  | .runtime _ => true
  | _ => false

/-- Embedding of `switch_binary_operator` (arfunctors.hpp, lines 555-570):
if either operand is a run-time functor, the composition is built as a
run-time node boxing a `composed_arfunctor` over the original operands
(`make_runtime_composed_arfunctor`); otherwise a plain compile-time
`composed_arfunctor` is built (`make_composed_arfunctor`). -/
def switch_binary_operator {R V : Type} (op : V → V → V) (lop rop : Node R V) :
    Node R V :=
  if is_runtime_arfunctor_node lop || is_runtime_arfunctor_node rop then
    Node.runtime (Node.comp2 op lop rop)
  else
    Node.comp2 op lop rop

/-- The purely static composition of the same semantic expression: the node
with every run-time (type-erasure) box stripped. -/
def static_form {R V : Type} : Node R V → Node R V
  | .value v => .value v
  | .functor f => .functor f
  | .runtime n => static_form n
  | .comp1 op x => .comp1 op (static_form x)
  | .comp2 op l r => .comp2 op (static_form l) (static_form r)

/-- Example run-time operand used by the refinement witness. -/
def c5_runtime_operand : Node Int Int := Node.runtime (Node.functor (fun r => r + 1))

/-! ## Run-time node copies and ownership (runtime_arfunctor)

`runtime_arfunctor` owns a raw pointer `m_ptr` to a heap-allocated
`specialized_arfunctor_wrapper`; the copy constructor sets
`m_ptr{other.m_ptr->clone()}` and `clone` allocates a brand-new wrapper
holding a copy of the wrapped functor
(`new specialized_arfunctor_wrapper{*this}`, arfunctors.hpp lines 323-326
and 371-372; identically core/runtime_arfunctor.hpp lines 70-72, 103-104).
The destructor deletes the owned wrapper.  The heap is modelled as a list of
cells, a pointer as an index, and a wrapper's evaluation-relevant payload as
the wrapped callable. -/
structure RuntimeHeap (R V : Type) where
  cells : List (Option (R → V))

/-- Dereference `m_ptr`: the payload at index `p`, when the cell is live. -/
def RuntimeHeap.deref {R V : Type} (h : RuntimeHeap R V) (p : Nat) :
    Option (R → V) :=
  h.cells[p]?.bind id

/-- Embedding of the copy constructor
`runtime_arfunctor(other) : m_ptr{other.m_ptr->clone()}`: allocate a fresh
cell holding a copy of the payload referenced by `p`, and return the new
heap together with the new pointer. -/
def RuntimeHeap.copy_ctor {R V : Type} (h : RuntimeHeap R V) (p : Nat) :
    RuntimeHeap R V × Nat :=
  (⟨h.cells ++ [h.deref p]⟩, h.cells.length)

/-- Embedding of `runtime_arfunctor::operator()`: dereference `m_ptr` and
invoke the wrapped functor. -/
def RuntimeHeap.eval_at {R V : Type} (h : RuntimeHeap R V) (p : Nat) (r : R) :
    Option V :=
  (h.deref p).map (fun f => f r)

/-- Embedding of the destructor `~runtime_arfunctor` (`delete m_ptr`):
the owned cell dies. -/
def RuntimeHeap.destroy {R V : Type} (h : RuntimeHeap R V) (p : Nat) :
    RuntimeHeap R V :=
  ⟨h.cells.set p none⟩

/-- Concrete one-node heap used by the deep-copy witness. -/
def c9_heap : RuntimeHeap Int Int := ⟨[some (fun n => n + 1)]⟩

/-! ## Numeric literals (numstr.hpp)

`arithmetic_value_from_str` scans an optional sign, the raw number (digits
and at most one decimal point), an optional scientific-notation exponent and
C-style suffixes, keeping its progress in an `io_bit_state` bit field
(`long unsigned int`); it finally dispatches on the accumulated state to a
typed parse of the digit span.  The bit field layout, masks and offsets are
taken verbatim from the source.  All states reached from the inputs
considered here fit far below `2^64`, so plain `Nat` bit operations agree
with the C++ `long unsigned int` ones.  Floating-point values are modelled
as exact rationals; every literal examined below only performs integer-value
additions and multiplications, which IEEE doubles and floats carry out
exactly, so the modelled results coincide with the C++ ones. -/
abbrev io_bit_state := Nat

/-- All 64 bits set; `~mask` on a `long unsigned int` is `mask64 ^^^ mask`. -/
def mask64 : Nat := 0xffffffffffffffff

structure bit_helper where
  mask : Nat
  offset : Nat

/-- Data type field (`data_type_enum`): `integral = 0`, `floating_point = 1`. -/
def data_type_bits : bit_helper := ⟨0xf, 0⟩

/-- Precision field (`precision_enum`): `normal_value = 0`, `long_value = 1`,
`long_long_value = 2`, `single_precision_floating_point = 3`. -/
def precision_bits : bit_helper := ⟨0xf0, 4⟩

/-- Integral sign field (`integral_sign_enum`): `signed_integral = 0`,
`unsigned_integral = 1`. -/
def integral_sign_bits : bit_helper := ⟨0xf00, 8⟩

/-- Value sign field (`value_sign_enum`): `positive = 0`, `negative = 1`. -/
def value_sign_bits : bit_helper := ⟨0xf000, 12⟩

/-- Exponent sign field (`exponent_sign_enum`): `positive_exponent = 0`,
`negative_exponent = 1`. -/
def exponent_sign_bits : bit_helper := ⟨0xf0000, 16⟩

/-- Bits below the exponent value field (`bit_helper_t<exponent_value>::omit`). -/
def exponent_omit : Nat := 0xfffff

/-- Offset of the exponent value field. -/
def exponent_offset : Nat := 20

def set_bit (h : bit_helper) (state value : io_bit_state) : io_bit_state :=
  (value <<< h.offset) ||| (state &&& (mask64 ^^^ h.mask))

def get_bit (h : bit_helper) (state : io_bit_state) : Nat :=
  (state &&& h.mask) >>> h.offset

def is_bit (h : bit_helper) (state value : io_bit_state) : Bool :=
  get_bit h state == value

def unspecified_value_state : io_bit_state := 0

def set_integral (state : io_bit_state) : io_bit_state :=
  set_bit data_type_bits state 0

def is_integral (state : io_bit_state) : Bool := is_bit data_type_bits state 0

def set_floating_point (state : io_bit_state) : io_bit_state :=
  set_bit data_type_bits state 1

def is_floating_point (state : io_bit_state) : Bool :=
  is_bit data_type_bits state 1

def set_unsigned (state : io_bit_state) : io_bit_state :=
  set_bit integral_sign_bits state 1

def is_unsigned (state : io_bit_state) : Bool :=
  is_bit integral_sign_bits state 1

def set_positive (state : io_bit_state) : io_bit_state :=
  set_bit value_sign_bits state 0

def set_negative (state : io_bit_state) : io_bit_state :=
  set_bit value_sign_bits state 1

def is_negative (state : io_bit_state) : Bool :=
  is_bit value_sign_bits state 1

def set_long (state : io_bit_state) : io_bit_state :=
  set_bit precision_bits state 1

def set_long_long (state : io_bit_state) : io_bit_state :=
  set_bit precision_bits state 2

def is_precision_set (state : io_bit_state) : Bool :=
  !(is_bit precision_bits state 0)

def set_single_precision_floating_point (state : io_bit_state) :
    io_bit_state :=
  set_bit precision_bits (set_floating_point state) 3

def set_exponent_positive (state : io_bit_state) : io_bit_state :=
  set_bit exponent_sign_bits state 0

def set_exponent_negative (state : io_bit_state) : io_bit_state :=
  set_bit exponent_sign_bits state 1

def set_exponent_value (state value : io_bit_state) : io_bit_state :=
  (state &&& exponent_omit) ||| (value <<< exponent_offset)

/-- Source: sign times `(state ^ omit) >> offset`; the xor only flips bits
below the exponent field, which the shift then discards. -/
def get_exponent (state : io_bit_state) : Int :=
  (if is_bit exponent_sign_bits state 0 then 1 else -1) *
    Int.ofNat ((state ^^^ exponent_omit) >>> exponent_offset)

/-- Embedding of `parse_raw_sanitized_integral` (numstr.hpp, lines 168-178):
the do-while walks the iterator BACKWARD from the end to the beginning while
computing `value = 10 * value + digit`, which accumulates the digits in
reverse order. -/
def parse_raw_sanitized_integral (digits : List Char) : Nat :=
  digits.reverse.foldl (fun value c => 10 * value + (c.toNat - 48)) 0

/-- Error taxonomy of `arithmetic_value_from_str`; one alternative for each
`std::runtime_error` thrown by the source. -/
inductive NumErr where
  | missing_number
  | repeated_colon
  | exponent_no_digits
  | unrecognized_exponent
  | exponent_too_large
  | sci_in_integral
  | repeated_sci
  | colon_in_integral
  | colon_in_suffix
  | u_suffix_in_floating
  | repeated_u_suffix
  | additional_l_specifier
  | invalid_f_specifier
deriving DecidableEq

/-- Variant of typed arithmetic values (`mpt::arithmetic_var`), restricted to
the alternatives the literal reader can produce; unsigned values carry the
accumulated `Nat`, signed ones an `Int`, floating ones an exact rational. -/
inductive arithmetic_var where
  | int_v (z : Int)
  | uint_v (n : Nat)
  | long_v (z : Int)
  | ulong_v (n : Nat)
  | llong_v (z : Int)
  | ullong_v (n : Nat)
  | float_v (q : ℚ)
  | double_v (q : ℚ)
  | longdouble_v (q : ℚ)
deriving DecidableEq

instance {e a : Type} [DecidableEq e] [DecidableEq a] :
    DecidableEq (Except e a) := fun x y =>
  match x, y with
  | .ok v, .ok w =>
      if h : v = w then isTrue (by rw [h]) else isFalse (by simp [h])
  | .error v, .error w =>
      if h : v = w then isTrue (by rw [h]) else isFalse (by simp [h])
  | .ok _, .error _ => isFalse (by simp)
  | .error _, .ok _ => isFalse (by simp)

/-- Embedding of `integral_value_impl` (numstr.hpp, lines 181-198). -/
def integral_value_impl (state : io_bit_state) (digits : List Char) :
    arithmetic_var :=
  if is_bit integral_sign_bits state 0 then
    if is_bit precision_bits state 2 then
      .llong_v (Int.ofNat (parse_raw_sanitized_integral digits))
    else if is_bit precision_bits state 1 then
      .long_v (Int.ofNat (parse_raw_sanitized_integral digits))
    else
      .int_v (Int.ofNat (parse_raw_sanitized_integral digits))
  else
    if is_bit precision_bits state 2 then
      .ullong_v (parse_raw_sanitized_integral digits)
    else if is_bit precision_bits state 1 then
      .ulong_v (parse_raw_sanitized_integral digits)
    else
      .uint_v (parse_raw_sanitized_integral digits)

/-- Body of the character loop of `parse_floating_point_value` (numstr.hpp,
lines 214-224): digits accumulate into the value, digits after the decimal
point decrement the exponent, and any non-digit in the span (the decimal
point) switches the `decimal` flag on. -/
def floating_digit_step (acc : ℚ × Int × Bool) (c : Char) : ℚ × Int × Bool :=
  if c.isDigit then
    (10 * acc.1 + ((c.toNat : ℚ) - 48),
     if acc.2.2 then acc.2.1 - 1 else acc.2.1,
     acc.2.2)
  else
    (acc.1, acc.2.1, true)

/-- Embedding of `parse_floating_point_value` (numstr.hpp, lines 200-230);
note the final ternary of the source returns the bare accumulated value when
the exponent is NONZERO, and applies `pow(10, exponent)` only when the
exponent is zero. -/
def parse_floating_point_value (max_exponent10 : Int) (state : io_bit_state)
    (digits : List Char) : Except NumErr ℚ :=
  if get_exponent state > max_exponent10 then .error .exponent_too_large
  else
    let folded := digits.foldl floating_digit_step (0, get_exponent state, false)
    let value := if is_negative state then folded.1 * (-1) else folded.1
    .ok (if folded.2.1 ≠ 0 then value else value * (10 : ℚ) ^ folded.2.1)

/-- Embedding of `floating_point_value_impl` (numstr.hpp, lines 232-240) with
`std::numeric_limits<T>::max_exponent10` instantiated for `float` (38),
`double` (308) and `long double` (4932). -/
def floating_point_value_impl (state : io_bit_state) (digits : List Char) :
    Except NumErr arithmetic_var :=
  if is_bit precision_bits state 3 then
    (parse_floating_point_value 38 state digits).map arithmetic_var.float_v
  else if is_bit precision_bits state 1 then
    (parse_floating_point_value 308 state digits).map arithmetic_var.double_v
  else
    (parse_floating_point_value 4932 state digits).map
      arithmetic_var.longdouble_v

/-- Character class accepted by `std::isspace` in the C locale. -/
def is_cpp_space (c : Char) : Bool :=
  c = ' ' || c = '\t' || c = '\n' || c = '\x0b' || c = '\x0c' || c = '\r'

/-- Sign-determination loop of `arithmetic_value_from_str` (numstr.hpp,
lines 249-262): skip whitespace, toggle the sign bit on `-`, skip `+`. -/
def sign_scan (state : io_bit_state) : List Char → io_bit_state × List Char
  | [] => (state, [])
  | c :: cs =>
    if is_cpp_space c then sign_scan state cs
    else if c = '-' then
      sign_scan (if is_negative state then set_positive state
                 else set_negative state) cs
    else if c = '+' then sign_scan state cs
    else (state, c :: cs)

/-- Raw-number loop of `arithmetic_value_from_str` (numstr.hpp, lines
271-287): digits and decimal points are consumed into the raw span; a second
decimal point is a `Repeated colon` error.  Returns the updated state, the
consumed span (`[start, raw_number_end)`) and the rest of the input. -/
def raw_scan (state : io_bit_state) (acc : List Char) :
    List Char → Except NumErr (io_bit_state × List Char × List Char)
  | [] => .ok (state, acc, [])
  | c :: cs =>
    if c.isDigit then raw_scan state (acc ++ [c]) cs
    else if c = '.' then
      if is_integral state then
        raw_scan (set_floating_point state) (acc ++ [c]) cs
      else .error .repeated_colon
    else .ok (state, acc, c :: cs)

/-- Exponent block of `arithmetic_value_from_str` (numstr.hpp, lines
290-324).  The source dereferences the cursor without an end-of-input check
before comparing against `e`; an exhausted input is modelled as the
no-exponent branch (and, inside the sign lambda, as the not-a-digit
branch). -/
def exponent_scan (state : io_bit_state) :
    List Char → Except NumErr (io_bit_state × List Char)
  | [] => .ok (state, [])
  | c :: cs =>
    if c = 'e' ∨ c = 'E' then
      let state1 := set_floating_point state
      match cs with
      | [] => .error .exponent_no_digits
      | c2 :: cs2 =>
        let signed : Except NumErr (io_bit_state × List Char) :=
          if c2 = '-' then
            match cs2 with
            | c3 :: cs3 =>
              if ¬ c3.isDigit then .error .exponent_no_digits
              else .ok (set_exponent_negative state1, c3 :: cs3)
            | [] => .error .exponent_no_digits
          else if c2 = '+' then
            match cs2 with
            | c3 :: cs3 =>
              if ¬ c3.isDigit then .error .exponent_no_digits
              else .ok (set_exponent_positive state1, c3 :: cs3)
            | [] => .error .exponent_no_digits
          else if c2.isDigit then .ok (set_exponent_positive state1, c2 :: cs2)
          else .error .unrecognized_exponent
        match signed with
        | .error e => .error e
        | .ok (state2, rest) =>
          .ok (set_exponent_value state2
                (parse_raw_sanitized_integral (rest.takeWhile Char.isDigit)),
              rest.dropWhile Char.isDigit)
    else .ok (state, c :: cs)

/-- Suffix loop of `arithmetic_value_from_str` (numstr.hpp, lines 326-379).
The source's repeated-`u` check calls `is_unsigned(*it)` on the CHARACTER
rather than on the state; this is transcribed as `is_unsigned c.toNat`. -/
def suffix_loop_fuel : Nat → io_bit_state → List Char →
    Except NumErr io_bit_state
  | _, state, [] => .ok state
  | 0, state, _ :: _ => .ok state
  | fuel + 1, state, c :: cs =>
    if c = 'e' ∨ c = 'E' then
      if is_integral state then .error .sci_in_integral
      else .error .repeated_sci
    else if c = '.' then
      if is_integral state then .error .colon_in_integral
      else .error .colon_in_suffix
    else if c = 'u' then
      if is_floating_point state then .error .u_suffix_in_floating
      else
        let state1 := set_integral state
        if is_unsigned c.toNat then .error .repeated_u_suffix
        else suffix_loop_fuel fuel (set_unsigned state1) cs
    else if c = 'l' then
      if is_precision_set state then .error .additional_l_specifier
      else if is_floating_point state then
        suffix_loop_fuel fuel (set_long_long state) cs
      else
        match cs with
        | c2 :: cs2 =>
          if c2 = 'l' then
            suffix_loop_fuel fuel (set_long_long (set_long state)) cs2
          else suffix_loop_fuel fuel (set_long state) (c2 :: cs2)
        | [] => .ok (set_long state)
    else if c = 'f' then
      if is_precision_set state then .error .invalid_f_specifier
      else suffix_loop_fuel fuel (set_single_precision_floating_point state) cs
    else .ok state

/-- The suffix loop consumes at least one character per iteration, so
`length` steps always drive it to completion: the fuel bound is never the
limiting factor, and its exhaustion value coincides with the end-of-input
result. -/
def suffix_loop (state : io_bit_state) (l : List Char) :
    Except NumErr io_bit_state :=
  suffix_loop_fuel l.length state l

/-- Embedding of `arithmetic_value_from_str` (numstr.hpp, lines 243-390). -/
def arithmetic_value_from_str (s : String) : Except NumErr arithmetic_var :=
  let scanned := sign_scan unspecified_value_state s.toList
  if scanned.2 = [] then .error .missing_number
  else
    match raw_scan scanned.1 [] scanned.2 with
    | .error e => .error e
    | .ok (state1, digits, rest1) =>
      match exponent_scan state1 rest1 with
      | .error e => .error e
      | .ok (state2, rest2) =>
        match suffix_loop state2 rest2 with
        | .error e => .error e
        | .ok state3 =>
          let state4 :=
            if !is_precision_set state3 && is_floating_point state3 then
              set_long state3
            else state3
          if is_integral state4 then .ok (integral_value_impl state4 digits)
          else floating_point_value_impl state4 digits

/-! ## Tokenizer and shunting-yard loop (arfunctors/parser.hpp)

`token_reader::operator>>` skips blanks, classifies the next character and
produces one token per call; `parse_impl` runs the shunting-yard loop
`while (reader >> tk)` over an output queue and an operator stack, drains
the stack, and finally returns `functors.at("x")` (the postfix fold is an
unimplemented TODO).  The reader is modelled on the remaining character
list: `parse_number` and the non-parenthesis part of `parse_operator` are
stubs that return a default-constructed variant — the `null_token` — WITHOUT
advancing the cursor, and `parse_comma` advances but also returns the
`null_token`.  The stream extraction sets `eofbit` once the cursor reaches
the end, and the `while` loop tests the stream state AFTER extraction, so a
token that ends exactly at the end of input is never processed.  Since the
token classes `all_operators`, the `precedence_type` and the operators'
`precedence` members do not exist anywhere under the include tree, operator
tokens and their precedences are modelled from the spec (higher binds
tighter, `*`/`/` above `+`/`-`); the reader never produces them. -/
inductive OpKind where
  | add
  | sub
  | mul
  | div
deriving DecidableEq

/-- Modelled from the spec: the numeric precedence table of the binary
operators (`type::precedence`, absent from the source tree); higher binds
tighter and multiplication binds tighter than addition. -/
def OpKind.precedence : OpKind → Nat
  | .add => 1
  | .sub => 1
  | .mul => 2
  | .div => 2

/-- The token variant of `token_reader::value_type`: the null/void
structural tokens, arithmetic values, resolved functors, function proxies
and operators. -/
inductive Token (F G : Type) where
  | null
  | lparen
  | rparen
  | comma
  | number (n : Nat)
  | functorTok (f : F)
  | functionTok (g : G)
  | opTok (o : OpKind)
deriving DecidableEq

/-- Error taxonomy of the parser; one alternative per `std::runtime_error`
(or `std::out_of_range`) the source can throw. -/
inductive ParseErr where
  | mismatched_parenthesis
  | missing_parenthesis
  | unknown_identifier
  | out_of_range
deriving DecidableEq

def token_is_lparen {F G : Type} : Token F G → Bool
  | .lparen => true
  | _ => false

def token_is_rparen {F G : Type} : Token F G → Bool
  | .rparen => true
  | _ => false

/-- Embedding of `token_is_function` (is the payload a `function_proxy`). -/
def token_is_function {F G : Type} : Token F G → Bool
  | .functionTok _ => true
  | _ => false

/-- Character class of `std::isblank` in the C locale. -/
def isblank (c : Char) : Bool := c = ' ' || c = '\t'

def is_identifier_start (c : Char) : Bool := c.isAlpha || c = '_'

def is_identifier_char (c : Char) : Bool := c.isAlphanum || c = '_'

/-- Association-list view of the (unique-key) `std::map` registries. -/
def lookup_map {A : Type} (m : List (String × A)) (name : String) : Option A :=
  (m.find? (fun p => p.1 == name)).map Prod.snd

/-- Result of one `reader >> tk` extraction: either end-of-input was reached
while skipping blanks (`eofbit`, no token), or a token together with the
remaining input. -/
inductive ReadResult (F G : Type) where
  | eof
  | tok (t : Token F G) (rest : List Char)
deriving DecidableEq

/-- Embedding of `token_reader::operator>>` (parser.hpp, lines 210-278):
skip blanks; a digit enters `parse_number`, which returns a null token
without advancing; a letter or underscore enters
`parse_functor_or_function`, which scans the maximal identifier NAME and
resolves it in the functor registry, then the function registry, throwing
when absent — but the cursor advances only by ONE character: the end of the
identifier is computed by `std::find_if_not(++m_it, ...)` and never
assigned back to `m_it`, so the reader resumes at the identifier's second
character and will re-read the suffix as an identifier of its own; a comma
is consumed but yields a null token; parentheses yield parenthesis tokens;
any other character enters the `parse_operator` stub, which returns a null
token without advancing. -/
def read_token {F G : Type} (functors : List (String × F))
    (functions : List (String × G)) (input : List Char) :
    Except ParseErr (ReadResult F G) :=
  match input.dropWhile isblank with
  | [] => .ok .eof
  | c :: cs =>
    if c.isDigit then .ok (.tok .null (c :: cs))
    else if is_identifier_start c then
      let name := String.mk (c :: cs.takeWhile is_identifier_char)
      match lookup_map functors name with
      | some f => .ok (.tok (.functorTok f) cs)
      | none =>
        match lookup_map functions name with
        | some g => .ok (.tok (.functionTok g) cs)
        | none => .error .unknown_identifier
    else if c = ',' then .ok (.tok .null cs)
    else if c = '(' then .ok (.tok .lparen cs)
    else if c = ')' then .ok (.tok .rparen cs)
    else .ok (.tok .null (c :: cs))

/-- Embedding of `determine_precedence` (parser.hpp, lines 291-304): the
precedence of an operator token; any other token kind throws
`Missing parenthesis`. -/
def determine_precedence {F G : Type} : Token F G → Except ParseErr Nat
  | .opTok o => .ok o.precedence
  | _ => .error .missing_parenthesis

/-- Operator branch loop of `parse_impl` (parser.hpp, lines 397-400):
`while (!stack.empty() && token_is_of_kind<left_parenthesis>(top) &&
determine_precedence(top) < determine_precedence(v))` move the top to the
output queue.  The kind test is NOT negated in the source, and
`determine_precedence` throws on a left parenthesis, so the loop throws
whenever the top is a left parenthesis and otherwise never pops. -/
def op_pop_loop {F G : Type} (o : OpKind) (q stk : List (Token F G)) :
    Except ParseErr (List (Token F G) × List (Token F G)) :=
  match stk with
  | [] => .ok (q, [])
  | top :: rest =>
    if token_is_lparen top then
      match determine_precedence top with
      | .error e => .error e
      | .ok pt =>
        if pt < o.precedence then op_pop_loop o (q ++ [top]) rest
        else .ok (q, top :: rest)
    else .ok (q, top :: rest)

/-- Comma branch of `parse_impl` (parser.hpp, lines 366-371): move stack
tops to the output queue WHILE the top is a left parenthesis (the source's
kind test is again not negated). -/
def comma_pop {F G : Type} (q stk : List (Token F G)) :
    List (Token F G) × List (Token F G) :=
  match stk with
  | [] => (q, [])
  | top :: rest =>
    if token_is_lparen top then comma_pop (q ++ [top]) rest
    else (q, top :: rest)

/-- Right-parenthesis do-while of `parse_impl` (parser.hpp, lines 375-382):
pop the top to the output queue (throwing when the stack is empty), and
repeat while the new top is a left parenthesis. -/
def rparen_pop {F G : Type} (q stk : List (Token F G)) :
    Except ParseErr (List (Token F G) × List (Token F G)) :=
  match stk with
  | [] => .error .mismatched_parenthesis
  | top :: rest =>
    match rest with
    | top2 :: _ =>
      if token_is_lparen top2 then rparen_pop (q ++ [top]) rest
      else .ok (q ++ [top], rest)
    | [] => .ok (q ++ [top], [])

/-- One step of the shunting-yard visitor (parser.hpp, lines 356-405):
arithmetic values and functors go to the output queue, function proxies and
left parentheses to the operator stack, commas and right parentheses run
their pop loops (the latter then discards one entry as the presumed left
parenthesis and afterwards moves a function top to the queue), operators run
the precedence loop and are pushed, and null tokens silently do nothing
(the `static_assert` branch). -/
def process_token {F G : Type} :
    Token F G → List (Token F G) → List (Token F G) →
    Except ParseErr (List (Token F G) × List (Token F G))
  | .number n, q, stk => .ok (q ++ [.number n], stk)
  | .functorTok f, q, stk => .ok (q ++ [.functorTok f], stk)
  | .functionTok g, q, stk => .ok (q, .functionTok g :: stk)
  | .comma, q, stk => .ok (comma_pop q stk)
  | .lparen, q, stk => .ok (q, .lparen :: stk)
  | .rparen, q, stk =>
    match rparen_pop q stk with
    | .error e => .error e
    | .ok (q1, stk1) =>
      match stk1 with
      | [] => .error .mismatched_parenthesis
      | _ :: stk2 =>
        match stk2 with
        | t :: rest =>
          if token_is_function t then .ok (q1 ++ [t], rest)
          else .ok (q1, t :: rest)
        | [] => .ok (q1, [])
  | .opTok o, q, stk =>
    match op_pop_loop o q stk with
    | .error e => .error e
    | .ok (q1, stk1) => .ok (q1, .opTok o :: stk1)
  | .null, q, stk => .ok (q, stk)

/-- The `while (reader >> tk)` loop of `parse_impl` (parser.hpp, lines
354-406), with fuel: extraction failures propagate, end-of-input (or a token
that consumed the last character, which sets `eofbit` and makes the loop
condition false BEFORE the token is processed) ends the loop with the
current queue and stack, and every processed token steps the state.
`Option` is `none` when the fuel runs out, i.e. when the loop has not
terminated within the given number of iterations. -/
def parse_loop {F G : Type} (functors : List (String × F))
    (functions : List (String × G)) :
    Nat → List Char → List (Token F G) × List (Token F G) →
    Except ParseErr (Option (List (Token F G) × List (Token F G)))
  | 0, _, _ => .ok none
  | fuel + 1, input, (q, stk) =>
    match read_token functors functions input with
    | .error e => .error e
    | .ok .eof => .ok (some (q, stk))
    | .ok (.tok t rest) =>
      if rest = [] then .ok (some (q, stk))
      else
        match process_token t q stk with
        | .error e => .error e
        | .ok (q1, stk1) => parse_loop functors functions fuel rest (q1, stk1)

/-- End-of-input drain of `parse_impl` (parser.hpp, lines 408-415): move the
remaining stack entries to the output queue; a left or right parenthesis on
the stack is a mismatched-parenthesis error. -/
def drain_stack {F G : Type} (q : List (Token F G)) :
    List (Token F G) → Except ParseErr (List (Token F G))
  | [] => .ok q
  | top :: rest =>
    if token_is_lparen top || token_is_rparen top then
      .error .mismatched_parenthesis
    else drain_stack (q ++ [top]) rest

/-- Embedding of `std::map::at`, which throws `std::out_of_range` when the
key is absent. -/
def map_at {A : Type} (m : List (String × A)) (key : String) :
    Except ParseErr A :=
  match lookup_map m key with
  | some v => .ok v
  | none => .error .out_of_range

/-- Embedding of `parse_impl` (parser.hpp, lines 343-419): run the
shunting-yard loop, drain the stack, then IGNORE the output queue and return
a copy of the functor registered under the fixed key `"x"`
(`functors.at("x")`; building the tree from the postfix queue is a TODO in
the source).  `Option` is `none` when the loop fuel runs out. -/
def parse_impl {F G : Type} (functors : List (String × F))
    (functions : List (String × G)) (fuel : Nat) (input : List Char) :
    Except ParseErr (Option F) :=
  match parse_loop functors functions fuel input ([], []) with
  | .error e => .error e
  | .ok none => .ok none
  | .ok (some (q, stk)) =>
    match drain_stack q stk with
    | .error e => .error e
    | .ok _ => (map_at functors "x").map some

/-- The token stream actually handed to the shunting-yard visitor: the
tokens extracted while the reader stays good, mirroring `parse_loop` (a
token that consumed the last character sets `eofbit` and is dropped).
`none` when the fuel runs out before the loop ends. -/
def tokens_for_loop {F G : Type} (functors : List (String × F))
    (functions : List (String × G)) :
    Nat → List Char → Except ParseErr (Option (List (Token F G)))
  | 0, _ => .ok none
  | fuel + 1, input =>
    match read_token functors functions input with
    | .error e => .error e
    | .ok .eof => .ok (some [])
    | .ok (.tok t rest) =>
      if rest = [] then .ok (some [])
      else
        match tokens_for_loop functors functions fuel rest with
        | .error e => .error e
        | .ok none => .ok none
        | .ok (some ts) => .ok (some (t :: ts))

/-- Characters of the terminating input fragment: blanks, commas and
identifier characters (and, redundantly but explicitly, no digits). -/
def plain_char (c : Char) : Bool :=
  (isblank c || c = ',' || is_identifier_start c) && !c.isDigit

def plain_chars (l : List Char) : Bool := l.all plain_char

/-- Every identifier token the reader produces resolves in the functor or
the function registry (the condition under which the reader never throws
`unknown_identifier`).  Because `parse_functor_or_function` advances the
cursor by a single character, the reader re-reads every proper suffix of a
maximal identifier run as an identifier of its own, so the resolution
condition is required at EVERY position of such a run: the `ident`
constructor demands that the maximal run starting at the current character
resolves and recurses one character further. -/
inductive IdentsResolve {F G : Type} (functors : List (String × F))
    (functions : List (String × G)) : List Char → Prop where
  | nil : IdentsResolve functors functions []
  | skip (c : Char) (cs : List Char) :
      is_identifier_start c = false →
      IdentsResolve functors functions cs →
      IdentsResolve functors functions (c :: cs)
  | ident (c : Char) (cs : List Char) :
      is_identifier_start c = true →
      ((lookup_map functors
          (String.mk (c :: cs.takeWhile is_identifier_char))).isSome = true ∨
        (lookup_map functions
          (String.mk (c :: cs.takeWhile is_identifier_char))).isSome = true) →
      IdentsResolve functors functions cs →
      IdentsResolve functors functions (c :: cs)

theorem evaluate_static_form {R V : Type} (n : Node R V) (r : R) :
    evaluate_arfunctor_or_value (static_form n) r =
      evaluate_arfunctor_or_value n r := by
  induction n with
  | value v => rfl
  | functor f => rfl
  | runtime n ih => simpa [static_form, evaluate_arfunctor_or_value] using ih
  | comp1 op x ih => simp [static_form, evaluate_arfunctor_or_value, ih]
  | comp2 op l rr ihl ihr =>
      simp [static_form, evaluate_arfunctor_or_value, ihl, ihr]

/-- Claim C1: evaluating a composed node applies its operator to the results
of evaluating each operand on the record; a functor-like operand (plain,
boxed run-time, or nested composed) is invoked with the record while a plain
value operand is used as a literal unchanged.  Evaluation is a pure function
of the node and the record, hence deterministic and non-mutating. -/
theorem composed_arfunctor_evaluates_operands {R V : Type} (op : V → V → V)
    (u : V → V) (a b : Node R V) (rec : R) :
    evaluate_arfunctor_or_value (Node.comp2 op a b) rec =
      op (evaluate_arfunctor_or_value a rec) (evaluate_arfunctor_or_value b rec)
    ∧ evaluate_arfunctor_or_value (Node.comp1 u a) rec =
        u (evaluate_arfunctor_or_value a rec)
    ∧ (∀ v : V, evaluate_arfunctor_or_value (Node.value v) rec = v)
    ∧ (∀ f : R → V, evaluate_arfunctor_or_value (Node.functor f) rec = f rec)
    ∧ (∀ n : Node R V,
        evaluate_arfunctor_or_value (Node.runtime n) rec =
          evaluate_arfunctor_or_value n rec) :=
  ⟨rfl, rfl, fun _ => rfl, fun _ => rfl, fun _ => rfl⟩

/-- Claim C5: combining operands of which at least one is a run-time
(type-erased) node yields a run-time composed node that evaluates to the
same value as the purely static composition of the same semantic expression
on the same record. -/
theorem runtime_composition_refines_static {R V : Type} (op : V → V → V)
    (lop rop : Node R V) (rec : R)
    (h : is_runtime_arfunctor_node lop = true ∨
         is_runtime_arfunctor_node rop = true) :
    evaluate_arfunctor_or_value (switch_binary_operator op lop rop) rec =
      evaluate_arfunctor_or_value
        (Node.comp2 op (static_form lop) (static_form rop)) rec := by
  have hcond : (is_runtime_arfunctor_node lop ||
      is_runtime_arfunctor_node rop) = true := by
    rcases h with h | h <;> simp [h]
  simp [switch_binary_operator, hcond, evaluate_arfunctor_or_value,
    evaluate_static_form]

/-- Witness for claim C5 at a concrete mixed composition. -/
theorem runtime_composition_refines_static_witness :
    (is_runtime_arfunctor_node c5_runtime_operand = true ∨
      is_runtime_arfunctor_node (Node.value 2 : Node Int Int) = true)
    ∧ evaluate_arfunctor_or_value
        (switch_binary_operator (fun a b => a + b) c5_runtime_operand
          (Node.value 2)) 3 =
      evaluate_arfunctor_or_value
        (Node.comp2 (fun a b => a + b) (static_form c5_runtime_operand)
          (static_form (Node.value 2))) 3
    ∧ evaluate_arfunctor_or_value
        (switch_binary_operator (fun a b => a + b) c5_runtime_operand
          (Node.value 2)) 3 = 6 :=
  ⟨Or.inl rfl,
   runtime_composition_refines_static (fun a b => a + b) c5_runtime_operand
     (Node.value 2) 3 (Or.inl rfl),
   rfl⟩

theorem RuntimeHeap.deref_lt {R V : Type} (h : RuntimeHeap R V) (p : Nat)
    (f : R → V) (hp : h.deref p = some f) : p < h.cells.length := by
  by_contra hge
  have hnone : h.cells[p]? = none :=
    List.getElem?_eq_none (Nat.le_of_not_lt hge)
  simp [RuntimeHeap.deref, hnone] at hp

/-- Claim C9: copying a run-time node allocates a fresh wrapper distinct from
the original's, the copy evaluates to the same output as the original on
every input, and the two share no internal state: destroying either one
leaves the other evaluable with unchanged results. -/
theorem runtime_arfunctor_copy_is_deep {R V : Type} (h : RuntimeHeap R V)
    (p : Nat) (f : R → V) (r : R) (hp : h.deref p = some f) :
    (h.copy_ctor p).2 ≠ p
    ∧ (h.copy_ctor p).1.eval_at (h.copy_ctor p).2 r = h.eval_at p r
    ∧ ((h.copy_ctor p).1.destroy p).eval_at (h.copy_ctor p).2 r =
        h.eval_at p r
    ∧ ((h.copy_ctor p).1.destroy (h.copy_ctor p).2).eval_at p r =
        h.eval_at p r := by
  have hlt : p < h.cells.length := RuntimeHeap.deref_lt h p f hp
  have hq : (h.copy_ctor p).2 = h.cells.length := rfl
  have d1 : (h.copy_ctor p).1.deref (h.copy_ctor p).2 = some f := by
    show (h.cells ++ [h.deref p])[h.cells.length]?.bind id = some f
    rw [List.getElem?_concat_length]
    exact hp
  have d2 : ((h.copy_ctor p).1.destroy p).deref (h.copy_ctor p).2 = some f := by
    show ((h.cells ++ [h.deref p]).set p none)[h.cells.length]?.bind id =
      some f
    rw [List.getElem?_set_ne (Nat.ne_of_lt hlt), List.getElem?_concat_length]
    exact hp
  have d3 : ((h.copy_ctor p).1.destroy (h.copy_ctor p).2).deref p = some f := by
    show ((h.cells ++ [h.deref p]).set h.cells.length none)[p]?.bind id =
      some f
    rw [List.getElem?_set_ne (Nat.ne_of_gt hlt),
      List.getElem?_append_left hlt]
    exact hp
  refine ⟨fun hcontra => absurd (hq ▸ hcontra) (Nat.ne_of_gt hlt), ?_, ?_, ?_⟩
  · simp only [RuntimeHeap.eval_at, d1, hp]
  · simp only [RuntimeHeap.eval_at, d2, hp]
  · simp only [RuntimeHeap.eval_at, d3, hp]

/-- Witness for claim C9 on a concrete heap, pointer and input. -/
theorem runtime_arfunctor_copy_is_deep_witness :
    c9_heap.deref 0 = some (fun n => n + 1)
    ∧ ((c9_heap.copy_ctor 0).2 ≠ 0
      ∧ (c9_heap.copy_ctor 0).1.eval_at (c9_heap.copy_ctor 0).2 4 =
          c9_heap.eval_at 0 4
      ∧ ((c9_heap.copy_ctor 0).1.destroy 0).eval_at (c9_heap.copy_ctor 0).2 4 =
          c9_heap.eval_at 0 4
      ∧ ((c9_heap.copy_ctor 0).1.destroy (c9_heap.copy_ctor 0).2).eval_at 0 4 =
          c9_heap.eval_at 0 4) :=
  ⟨rfl, runtime_arfunctor_copy_is_deep c9_heap 0 (fun n => n + 1) 4 rfl⟩

theorem digit_not_blank (c : Char) (h : c.isDigit = true) :
    isblank c = false := by
  rcases Bool.eq_false_or_eq_true (isblank c) with hb | hb
  · exfalso
    have hc : c = ' ' ∨ c = '\t' := by simpa [isblank] using hb
    rcases hc with rfl | rfl
    · exact absurd h (by decide)
    · exact absurd h (by decide)
  · exact hb

theorem blank_not_ident_start (c : Char) (h : isblank c = true) :
    is_identifier_start c = false := by
  have hc : c = ' ' ∨ c = '\t' := by simpa [isblank] using h
  rcases hc with rfl | rfl
  · decide
  · decide

theorem dropWhile_head_false (p : Char → Bool) :
    ∀ (l : List Char) (c : Char) (cs : List Char),
      l.dropWhile p = c :: cs → p c = false := by
  intro l
  induction l with
  | nil => intro c cs h; simp at h
  | cons a l ih =>
    intro c cs h
    rw [List.dropWhile_cons] at h
    by_cases hp : p a = true
    · rw [if_pos hp] at h
      exact ih c cs h
    · rw [if_neg hp] at h
      obtain ⟨rfl, -⟩ := List.cons.inj h
      exact Bool.eq_false_iff.mpr hp

theorem plain_chars_of_sublist {l1 l2 : List Char} (hs : l1.Sublist l2)
    (h : plain_chars l2 = true) : plain_chars l1 = true := by
  simp only [plain_chars, List.all_eq_true] at *
  exact fun c hc => h c (hs.subset hc)

theorem identsResolve_dropWhile_blank {F G : Type}
    {functors : List (String × F)} {functions : List (String × G)} :
    ∀ (l : List Char), IdentsResolve functors functions l →
      IdentsResolve functors functions (l.dropWhile isblank) := by
  intro l
  induction l with
  | nil => intro h; simpa using h
  | cons a l ih =>
    intro h
    rw [List.dropWhile_cons]
    by_cases hb : isblank a = true
    · rw [if_pos hb]
      apply ih
      cases h with
      | skip _ _ _ htail => exact htail
      | ident _ _ hstart _ _ =>
          exact absurd hstart (by simp [blank_not_ident_start a hb])
    · rw [if_neg hb]
      exact h

theorem parse_loop_stuck_on_digit {F G : Type} (functors : List (String × F))
    (functions : List (String × G)) :
    ∀ (fuel : Nat) (input : List Char) (q stk : List (Token F G))
      (c : Char) (cs : List Char),
      input.dropWhile isblank = c :: cs → c.isDigit = true →
      parse_loop functors functions fuel input (q, stk) = .ok none := by
  intro fuel
  induction fuel with
  | zero => intro input q stk c cs _ _; rfl
  | succ fuel ih =>
    intro input q stk c cs hd hdig
    have hread : read_token functors functions input =
        .ok (.tok .null (c :: cs)) := by
      simp only [read_token, hd, hdig, if_true]
    have hne : ¬((c :: cs) = ([] : List Char)) := by simp
    simp only [parse_loop, hread, if_neg hne, process_token]
    apply ih (c :: cs) q stk c cs ?_ hdig
    rw [List.dropWhile_cons, if_neg (by simp [digit_not_blank c hdig])]

/-- Claim C2: with the functor `x` registered, `parse("2 + 3 * 4")` never
terminates for any iteration bound: the reader yields a null token for the
digit `2` without advancing the cursor, so the shunting-yard loop re-reads
it forever; the call neither returns a node evaluating to 14 (nor to
anything else). -/
theorem parse_precedence_example_diverges :
    ∀ fuel : Nat,
      parse_impl [("x", (0 : Nat))] ([] : List (String × Nat)) fuel
        "2 + 3 * 4".toList = .ok none := by
  intro fuel
  have hloop : parse_loop [("x", (0 : Nat))] ([] : List (String × Nat)) fuel
      "2 + 3 * 4".toList ([], []) = .ok none :=
    parse_loop_stuck_on_digit _ _ fuel _ _ _ '2' " + 3 * 4".toList
      (by decide) (by decide)
  simp only [parse_impl, hloop]

/-- Claim C3: behaviour of the shunting-yard operator branch.  An incoming
`+` with `*` (precedence 2 ≥ 1) on the stack top pops nothing — the `*`
stays below the pushed `+` and the output queue is untouched — because the
pop condition requires the top to BE a left parenthesis; and when the top is
a left parenthesis the branch throws `Missing parenthesis`, because
`determine_precedence` is evaluated on the parenthesis token. -/
theorem operator_branch_code_behaviour :
    process_token (Token.opTok OpKind.add) ([] : List (Token Nat Nat))
        [Token.opTok OpKind.mul] =
      .ok ([], [Token.opTok OpKind.add, Token.opTok OpKind.mul])
    ∧ process_token (Token.opTok OpKind.add) ([] : List (Token Nat Nat))
        [Token.lparen] = .error .missing_parenthesis :=
  ⟨by decide, by decide⟩

/-- Claim C4: the token stream handed to the shunting-yard loop DOES contain
null tokens: on the input `",,"` the first comma is returned as the
`null_token` (with input remaining, so the loop processes it). -/
theorem token_stream_contains_null :
    tokens_for_loop ([] : List (String × Nat)) ([] : List (String × Nat)) 5
      ",,".toList = .ok (some [Token.null]) := by decide

/-- Claim C8: with the functor `x` registered, both `parse("(2 + 3")` and
`parse("2 + 3)")` fail to terminate for any iteration bound instead of
raising a mismatched-parentheses error: after the leading parenthesis (if
any) the reader reaches the digit `2`, yields a null token without
advancing, and loops forever. -/
theorem parse_mismatched_examples_diverge :
    (∀ fuel : Nat,
      parse_impl [("x", (0 : Nat))] ([] : List (String × Nat)) fuel
        "(2 + 3".toList = .ok none)
    ∧ (∀ fuel : Nat,
      parse_impl [("x", (0 : Nat))] ([] : List (String × Nat)) fuel
        "2 + 3)".toList = .ok none) := by
  constructor
  · intro fuel
    match fuel with
    | 0 => rfl
    | fuel + 1 =>
      have hread : read_token [("x", (0 : Nat))] ([] : List (String × Nat))
          "(2 + 3".toList = .ok (.tok .lparen "2 + 3".toList) := by decide
      have h1 : parse_loop [("x", (0 : Nat))] ([] : List (String × Nat)) fuel
          "2 + 3".toList ([], [Token.lparen]) = .ok none :=
        parse_loop_stuck_on_digit _ _ fuel _ _ _ '2' " + 3".toList
          (by decide) (by decide)
      have h2 : parse_loop [("x", (0 : Nat))] ([] : List (String × Nat))
          (fuel + 1) "(2 + 3".toList ([], []) = .ok none := by
        simp only [parse_loop, hread,
          if_neg (by decide : ¬("2 + 3".toList = [])), process_token]
        exact h1
      simp only [parse_impl, h2]
  · intro fuel
    have hloop : parse_loop [("x", (0 : Nat))] ([] : List (String × Nat)) fuel
        "2 + 3)".toList ([], []) = .ok none :=
      parse_loop_stuck_on_digit _ _ fuel _ _ _ '2' " + 3)".toList
        (by decide) (by decide)
    simp only [parse_impl, hloop]

/-- Claim C10 counterexample: the input `"()"` has balanced parentheses and
no identifiers, and the functor `x` is registered, yet `parse` raises a
mismatched-parentheses error instead of returning the `x` functor: the
right-parenthesis branch moves the left parenthesis itself to the output
queue and then finds the stack empty (and a right parenthesis that ends the
input is dropped by the `eofbit` check, leaving the left parenthesis to the
drain, which also throws). -/
theorem parse_balanced_parentheses_counterexample :
    parse_impl [("x", (0 : Nat))] ([] : List (String × Nat)) 5 "()".toList =
      .error .mismatched_parenthesis := by decide

/-- Claim C6: evaluation of the code on the spec's own numeric-literal
examples.  The type tags follow the suffix grammar as the claim states
(unsigned for `u`, long for `l`, float for `f`, double for the plain
scientific literal), but the VALUES differ from the ones the literals
denote: `parse_raw_sanitized_integral` accumulates the digits walking
backward, so `13u` and `13l` yield 31, and the final ternary of
`parse_floating_point_value` returns the raw digit accumulation whenever the
(decimal-adjusted) exponent is nonzero, so `13.0f` yields 130 and
`13.45e-2` yields 1345 instead of 13.45e-2. -/
theorem numeric_literal_parse_values :
    arithmetic_value_from_str "13u" = .ok (.uint_v 31)
    ∧ arithmetic_value_from_str "13l" = .ok (.long_v 31)
    ∧ arithmetic_value_from_str "13.0f" = .ok (.float_v 130)
    ∧ arithmetic_value_from_str "13.45e-2" = .ok (.double_v 1345) := by
  refine ⟨by decide, by decide, ?_, ?_⟩
  · have h0 : "13.0f".toList = ['1', '3', '.', '0', 'f'] := by decide
    have h1 : sign_scan unspecified_value_state ['1', '3', '.', '0', 'f'] =
        (0, ['1', '3', '.', '0', 'f']) := by decide
    have h2 : raw_scan 0 [] ['1', '3', '.', '0', 'f'] =
        .ok (1, ['1', '3', '.', '0'], ['f']) := by decide
    have h3 : exponent_scan 1 ['f'] = .ok (1, ['f']) := by decide
    have h4 : suffix_loop 1 ['f'] = .ok 49 := by decide
    have h5 : (!is_precision_set 49 && is_floating_point 49) = false := by
      decide
    have h6 : is_integral 49 = false := by decide
    have h7 : is_bit precision_bits 49 3 = true := by decide
    have h8 : get_exponent 49 = 0 := by decide
    have h10 : is_negative 49 = false := by decide
    simp only [arithmetic_value_from_str, h0, h1, h2, h3, h4, h5,
      floating_point_value_impl, parse_floating_point_value]
    norm_num [h6, h7, h8, h10, floating_digit_step,
      (by decide : ('1').isDigit = true), (by decide : ('3').isDigit = true),
      (by decide : ('0').isDigit = true), (by decide : ('.').isDigit = false),
      (by decide : ('1').toNat = 49), (by decide : ('3').toNat = 51),
      (by decide : ('0').toNat = 48), Except.map]
    exact fun hcontra => absurd hcontra (by decide)
  · have h0 : "13.45e-2".toList = ['1', '3', '.', '4', '5', 'e', '-', '2'] :=
      by decide
    have h1 : sign_scan unspecified_value_state
        ['1', '3', '.', '4', '5', 'e', '-', '2'] =
        (0, ['1', '3', '.', '4', '5', 'e', '-', '2']) := by decide
    have h2 : raw_scan 0 [] ['1', '3', '.', '4', '5', 'e', '-', '2'] =
        .ok (1, ['1', '3', '.', '4', '5'], ['e', '-', '2']) := by decide
    have h3 : exponent_scan 1 ['e', '-', '2'] = .ok (2162689, []) := by decide
    have h4 : suffix_loop 2162689 [] = .ok 2162689 := by decide
    have h5 : (!is_precision_set 2162689 && is_floating_point 2162689) =
        true := by decide
    have h5b : set_long 2162689 = 2162705 := by decide
    have h6 : is_integral 2162705 = false := by decide
    have h7 : is_bit precision_bits 2162705 3 = false := by decide
    have h7b : is_bit precision_bits 2162705 1 = true := by decide
    have h8 : get_exponent 2162705 = -2 := by decide
    have h10 : is_negative 2162705 = false := by decide
    simp only [arithmetic_value_from_str, h0, h1, h2, h3, h4, h5, h5b,
      floating_point_value_impl, parse_floating_point_value]
    norm_num [h6, h7, h7b, h8, h10, floating_digit_step,
      (by decide : ('1').isDigit = true), (by decide : ('3').isDigit = true),
      (by decide : ('4').isDigit = true), (by decide : ('5').isDigit = true),
      (by decide : ('.').isDigit = false),
      (by decide : ('1').toNat = 49), (by decide : ('3').toNat = 51),
      (by decide : ('4').toNat = 52), (by decide : ('5').toNat = 53),
      Except.map]
    exact fun hcontra => absurd hcontra (by decide)

/-- Claim C7: a second decimal point, an exponent without digits, and a `u`
suffix on a floating-point literal are each rejected with a lexical error,
but a REPEATED `u` suffix is NOT rejected: the repeated-`u` check tests
`is_unsigned(*it)` on the character `u` (ASCII 117), which never has the
unsigned bit of the state layout set, so `13uu` parses successfully (to
unsigned 31). -/
theorem malformed_numeric_literal_behaviour :
    arithmetic_value_from_str "1.2.3" = .error .repeated_colon
    ∧ arithmetic_value_from_str "13e" = .error .exponent_no_digits
    ∧ arithmetic_value_from_str "13.0u" = .error .u_suffix_in_floating
    ∧ arithmetic_value_from_str "13uu" = .ok (.uint_v 31) := by
  refine ⟨by decide, by decide, by decide, by decide⟩

theorem drain_stack_functions {F G : Type} :
    ∀ (stk q : List (Token F G)),
      (∀ t ∈ stk, token_is_function t = true) →
      ∃ q2, drain_stack q stk = .ok q2 := by
  intro stk
  induction stk with
  | nil => intro q _; exact ⟨q, rfl⟩
  | cons top rest ih =>
    intro q hstk
    have htop : token_is_function top = true :=
      hstk top (List.mem_cons_self top rest)
    have hpar : (token_is_lparen top || token_is_rparen top) = false := by
      cases top <;> simp_all [token_is_function, token_is_lparen, token_is_rparen]
    obtain ⟨q2, hq2⟩ :=
      ih (q ++ [top]) (fun t ht => hstk t (List.mem_cons_of_mem top ht))
    refine ⟨q2, ?_⟩
    simp only [drain_stack, hpar, Bool.false_eq_true, if_false]
    exact hq2

theorem parse_loop_plain {F G : Type} (functors : List (String × F))
    (functions : List (String × G)) :
    ∀ (fuel : Nat) (input : List Char) (q stk : List (Token F G)),
      plain_chars input = true →
      IdentsResolve functors functions input →
      input.length < fuel →
      (∀ t ∈ stk, token_is_function t = true) →
      ∃ q2 stk2,
        parse_loop functors functions fuel input (q, stk) =
          .ok (some (q2, stk2))
        ∧ ∀ t ∈ stk2, token_is_function t = true := by
  intro fuel
  induction fuel with
  | zero => intro input q stk _ _ hlen _; omega
  | succ fuel ih =>
    intro input q stk hchars hres hlen hstk
    rcases hdrop : input.dropWhile isblank with _ | ⟨c, cs⟩
    case nil =>
      refine ⟨q, stk, ?_, hstk⟩
      simp only [parse_loop, read_token, hdrop]
    case cons =>
      have hsub : (c :: cs).Sublist input := by
        rw [← hdrop]; exact List.dropWhile_sublist _
      have hplain_ccs : plain_chars (c :: cs) = true :=
        plain_chars_of_sublist hsub hchars
      have hplain_parts : plain_char c = true ∧ plain_chars cs = true := by
        simpa [plain_chars, Bool.and_eq_true] using hplain_ccs
      have hdig : c.isDigit = false := by
        have h := hplain_parts.1
        simp only [plain_char, Bool.and_eq_true, Bool.not_eq_true'] at h
        exact h.2
      have hnb : isblank c = false := dropWhile_head_false isblank input c cs hdrop
      have hres_ccs : IdentsResolve functors functions (c :: cs) := by
        have h := identsResolve_dropWhile_blank input hres
        rwa [hdrop] at h
      have hlen_ccs : (c :: cs).length ≤ input.length := hsub.length_le
      have hkind : c = ',' ∨ is_identifier_start c = true := by
        have h := hplain_parts.1
        simp only [plain_char, Bool.and_eq_true, Bool.or_eq_true,
          decide_eq_true_eq] at h
        rcases h.1 with (hb | hcm) | hid
        · rw [hnb] at hb; cases hb
        · exact Or.inl hcm
        · exact Or.inr hid
      rcases hkind with hcomma | hident
      · subst hcomma
        have hread : read_token functors functions input =
            .ok (.tok .null cs) := by
          simp [read_token, hdrop, (by decide : (',').isDigit = false),
            (by decide : is_identifier_start ',' = false)]
        by_cases hcs : cs = []
        · refine ⟨q, stk, ?_, hstk⟩
          simp only [parse_loop, hread, hcs, if_pos]
        · have hres_cs : IdentsResolve functors functions cs := by
            cases hres_ccs with
            | skip _ _ _ ht => exact ht
            | ident _ _ hstart _ _ => exact absurd hstart (by decide)
          have hlcs : cs.length < fuel := by
            have := hlen_ccs; simp at this; omega
          obtain ⟨q2, stk2, hrec, hstk2⟩ :=
            ih cs q stk hplain_parts.2 hres_cs hlcs hstk
          refine ⟨q2, stk2, ?_, hstk2⟩
          simp only [parse_loop, hread, if_neg hcs, process_token]
          exact hrec
      · have hresolve_tail :
            ((lookup_map functors
                (String.mk (c :: cs.takeWhile is_identifier_char))).isSome =
                  true ∨
              (lookup_map functions
                (String.mk (c :: cs.takeWhile is_identifier_char))).isSome =
                  true)
            ∧ IdentsResolve functors functions cs := by
          cases hres_ccs with
          | skip _ _ hns _ => rw [hident] at hns; cases hns
          | ident _ _ _ hresolve htail => exact ⟨hresolve, htail⟩
        have hlcs : cs.length < fuel := by
          have := hlen_ccs; simp at this; omega
        rcases hlf : lookup_map functors
            (String.mk (c :: cs.takeWhile is_identifier_char)) with _ | f
        · rcases hlg : lookup_map functions
              (String.mk (c :: cs.takeWhile is_identifier_char)) with _ | g
          · exfalso
            rcases hresolve_tail.1 with h | h
            · rw [hlf] at h; simp at h
            · rw [hlg] at h; simp at h
          · have hread : read_token functors functions input =
                .ok (.tok (.functionTok g) cs) := by
              simp [read_token, hdrop, hdig, hident, hlf, hlg]
            by_cases hrest : cs = []
            · refine ⟨q, stk, ?_, hstk⟩
              simp only [parse_loop, hread, hrest, if_pos]
            · have hstk2 : ∀ t ∈ (Token.functionTok g :: stk),
                  token_is_function t = true := by
                intro t ht
                rcases List.mem_cons.mp ht with rfl | ht
                · rfl
                · exact hstk t ht
              obtain ⟨q2, stk2, hrec, hstk3⟩ :=
                ih cs q (Token.functionTok g :: stk) hplain_parts.2
                  hresolve_tail.2 hlcs hstk2
              refine ⟨q2, stk2, ?_, hstk3⟩
              simp only [parse_loop, hread, if_neg hrest, process_token]
              exact hrec
        · have hread : read_token functors functions input =
              .ok (.tok (.functorTok f) cs) := by
            simp [read_token, hdrop, hdig, hident, hlf]
          by_cases hrest : cs = []
          · refine ⟨q, stk, ?_, hstk⟩
            simp only [parse_loop, hread, hrest, if_pos]
          · obtain ⟨q2, stk2, hrec, hstk3⟩ :=
              ih cs (q ++ [Token.functorTok f]) stk hplain_parts.2
                hresolve_tail.2 hlcs hstk
            refine ⟨q2, stk2, ?_, hstk3⟩
            simp only [parse_loop, hread, if_neg hrest, process_token]
            exact hrec

/-- Claim C10 (amended): for every input made of blanks, commas and
identifier characters (no parentheses, digits or operator characters) such
that every identifier the reader produces resolves — because of the
single-character cursor advance this means the maximal identifier run
starting at every position, i.e. every suffix of every identifier, resolves
in the registries — and any sufficient iteration bound, the parser ignores
the postfix output queue it built and returns a copy of the functor
registered under the fixed key `"x"` — the result does not depend on the
input text — and when no functor named `"x"` is registered the call throws
`std::out_of_range` instead of returning a parse result. -/
theorem parse_plain_input_returns_x {F G : Type} (functors : List (String × F))
    (functions : List (String × G)) (input : List Char) (fuel : Nat)
    (hchars : plain_chars input = true)
    (hres : IdentsResolve functors functions input)
    (hfuel : input.length < fuel) :
    parse_impl functors functions fuel input =
      (map_at functors "x").map some := by
  obtain ⟨q2, stk2, hloop, hstk2⟩ :=
    parse_loop_plain functors functions fuel input [] [] hchars hres hfuel
      (by intro t ht; cases ht)
  obtain ⟨q3, hdrain⟩ := drain_stack_functions stk2 q2 hstk2
  simp only [parse_impl, hloop, hdrain]

/-- Witness for the amended claim C10: on the registry `{x ↦ 7, y ↦ 8}` and
the input `"y"`, the parser returns the functor registered under `"x"`. -/
theorem parse_plain_input_returns_x_witness :
    plain_chars "y".toList = true
    ∧ IdentsResolve [("x", (7 : Nat)), ("y", 8)] ([] : List (String × Nat))
        "y".toList
    ∧ "y".toList.length < 9
    ∧ parse_impl [("x", (7 : Nat)), ("y", 8)] ([] : List (String × Nat)) 9
        "y".toList = (map_at [("x", (7 : Nat)), ("y", 8)] "x").map some
    ∧ parse_impl [("x", (7 : Nat)), ("y", 8)] ([] : List (String × Nat)) 9
        "y".toList = .ok (some 7) :=
  ⟨by decide,
   IdentsResolve.ident 'y' [] (by decide) (Or.inl (by decide))
     IdentsResolve.nil,
   by decide,
   parse_plain_input_returns_x _ _ _ 9 (by decide)
     (IdentsResolve.ident 'y' [] (by decide) (Or.inl (by decide))
       IdentsResolve.nil) (by decide),
   by decide⟩

end Mpt

